import Mathlib

set_option maxRecDepth 100000

/-!
Shallow embedding of the leadsense enhanced scraping pipeline
(`leadsense_app/agents/scraper.py`, with `helper.py` and the search-result
model of `leadsense_app/agents/leadsense.py`), together with theorems that
settle the specification claims about it.

Numeric confidence scores are modelled as rationals; the extraction
capability, the network fetch and the per-URL task outcomes are modelled as
explicit inputs, since they are external effects from the point of view of
the scraper module.
-/

namespace Leadsense

/-- CompanyData (pydantic model in scraper.py): one extracted company record. -/
structure CompanyData where
  company_name : String
  website_url : Option String := none
  address : Option String := none
  contact_email : Option String := none
  phone_number : Option String := none
  description : Option String := none
  automation_proposal : Option String := none
  source_url : String
  confidence_score : ℚ
deriving Repr, DecidableEq, Inhabited

/-- ScrapingResult (pydantic model in scraper.py): outcome of one orchestration run. -/
structure ScrapingResult where
  companies : List CompanyData
  total_urls_processed : Nat
  successful_scrapes : Nat
  failed_scrapes : Nat
  errors : List String
deriving Repr, DecidableEq, Inhabited

/-! ### Python string primitives

The embedding models the Python `str` operations the scraper uses over the
character list of a string (ASCII fragment of the Unicode behaviour). -/

/-- Whitespace class of Python `str.strip` and of the regex `\s` (ASCII part). -/
def isPySpace (c : Char) : Bool :=
  c = ' ' || c = '\t' || c = '\n' || c = '\r' || c = '\x0b' || c = '\x0c'

/-- Python `str.strip()`. -/
def pyStrip (s : String) : String :=
  String.mk (((s.toList.dropWhile isPySpace).reverse.dropWhile isPySpace).reverse)

/-- Python `str.lower()` (ASCII part). -/
def pyLower (s : String) : String :=
  String.mk (s.toList.map Char.toLower)

/-- Worker for `pySplitOn`; the fuel dominates the character count, and the
separator is non-empty at every call site. -/
def pySplitAux (sep : List Char) : Nat → List Char → List Char → List (List Char)
  | 0, _, acc => [acc.reverse]
  | _ + 1, [], acc => [acc.reverse]
  | f + 1, l@(c :: t), acc =>
    if sep.isPrefixOf l then acc.reverse :: pySplitAux sep f (l.drop sep.length) []
    else pySplitAux sep f t (c :: acc)

/-- Python `s.split(sep)` for a non-empty separator. -/
def pySplitOn (s sep : String) : List String :=
  (pySplitAux sep.toList (s.toList.length + 1) s.toList []).map String.mk

/-- Worker for `pyReplace`; the separator is non-empty at every call site. -/
def pyReplaceAux (pat rep : List Char) : Nat → List Char → List Char
  | 0, l => l
  | _ + 1, [] => []
  | f + 1, l@(c :: t) =>
    if pat.isPrefixOf l then rep ++ pyReplaceAux pat rep f (l.drop pat.length)
    else c :: pyReplaceAux pat rep f t

/-- Python `s.replace(pat, rep)` (all non-overlapping occurrences, left to
right) for a non-empty pattern. -/
def pyReplace (s pat rep : String) : String :=
  String.mk (pyReplaceAux pat.toList rep.toList (s.toList.length + 1) s.toList)

/-- Dedup key used at scraper.py line 474: `(company.company_name.lower(), company.website_url)`. -/
def dedupKey (c : CompanyData) : String × Option String :=
  (pyLower c.company_name, c.website_url)

/-- The dedup loop of scraper.py lines 470-477: walk the list keeping a `seen`
set of keys, appending each record whose key was not seen before. -/
def dedupAux (seen : List (String × Option String)) : List CompanyData → List CompanyData
  | [] => []
  | c :: rest =>
    if dedupKey c ∈ seen then dedupAux seen rest
    else c :: dedupAux (dedupKey c :: seen) rest

/-- `unique_companies` computation of scraper.py lines 470-477. -/
def removeDuplicates (companies : List CompanyData) : List CompanyData :=
  dedupAux [] companies

theorem dedupAux_length_le (seen : List (String × Option String)) (cs : List CompanyData) :
    (dedupAux seen cs).length ≤ cs.length := by
  induction cs generalizing seen with
  | nil => simp [dedupAux]
  | cons c rest ih =>
    by_cases h : dedupKey c ∈ seen
    · simp only [dedupAux, if_pos h]
      exact Nat.le_succ_of_le (ih seen)
    · simp only [dedupAux, if_neg h, List.length_cons]
      exact Nat.succ_le_succ (ih _)

theorem mem_dedupAux_not_seen {seen : List (String × Option String)}
    {cs : List CompanyData} {c : CompanyData} (h : c ∈ dedupAux seen cs) :
    dedupKey c ∉ seen := by
  induction cs generalizing seen with
  | nil => simp [dedupAux] at h
  | cons d rest ih =>
    by_cases hd : dedupKey d ∈ seen
    · rw [dedupAux, if_pos hd] at h
      exact ih h
    · rw [dedupAux, if_neg hd] at h
      rcases List.mem_cons.mp h with h1 | h1
      · subst h1; exact hd
      · intro hk
        exact (ih h1) (List.mem_cons_of_mem _ hk)

theorem dedupAux_pairwise (seen : List (String × Option String)) (cs : List CompanyData) :
    (dedupAux seen cs).Pairwise (fun a b => dedupKey a ≠ dedupKey b) := by
  induction cs generalizing seen with
  | nil => simp [dedupAux]
  | cons c rest ih =>
    by_cases h : dedupKey c ∈ seen
    · rw [dedupAux, if_pos h]; exact ih seen
    · rw [dedupAux, if_neg h]
      refine List.Pairwise.cons ?_ (ih _)
      intro b hb
      have := mem_dedupAux_not_seen hb
      intro heq
      exact this (heq ▸ List.mem_cons_self _ _)

theorem dedupAux_find? (cs : List CompanyData) (seen : List (String × Option String))
    (k : String × Option String) (hk : k ∉ seen) :
    (dedupAux seen cs).find? (fun c => decide (dedupKey c = k)) =
      cs.find? (fun c => decide (dedupKey c = k)) := by
  induction cs generalizing seen with
  | nil => simp [dedupAux]
  | cons c rest ih =>
    by_cases h : dedupKey c ∈ seen
    · rw [dedupAux, if_pos h]
      have hne : dedupKey c ≠ k := fun heq => hk (heq ▸ h)
      rw [List.find?_cons_of_neg _ (by simpa using hne)]
      exact ih seen hk
    · rw [dedupAux, if_neg h]
      by_cases hck : dedupKey c = k
      · rw [List.find?_cons_of_pos _ (by simpa using hck),
          List.find?_cons_of_pos _ (by simpa using hck)]
      · rw [List.find?_cons_of_neg _ (by simpa using hck),
          List.find?_cons_of_neg _ (by simpa using hck)]
        refine ih _ ?_
        intro hmem
        rcases List.mem_cons.mp hmem with h1 | h1
        · exact hck h1.symm
        · exact hk h1

theorem dedupAux_of_pairwise (cs : List CompanyData) (seen : List (String × Option String))
    (hdisj : ∀ c ∈ cs, dedupKey c ∉ seen)
    (hpw : cs.Pairwise (fun a b => dedupKey a ≠ dedupKey b)) :
    dedupAux seen cs = cs := by
  induction cs generalizing seen with
  | nil => simp [dedupAux]
  | cons c rest ih =>
    have hc : dedupKey c ∉ seen := hdisj c (List.mem_cons_self _ _)
    rw [dedupAux, if_neg hc]
    congr 1
    refine ih _ ?_ (List.Pairwise.of_cons hpw)
    intro d hd hmem
    rcases List.mem_cons.mp hmem with h1 | h1
    · exact (List.pairwise_cons.mp hpw).1 d hd h1.symm
    · exact hdisj d (List.mem_cons_of_mem _ hd) h1

/-! ### Page classifier (scraper.py `detect_page_type`, lines 40-92)

The regular expressions of the source use only literal characters, the
one-or-more-whitespace `\s+` gap and the within-tag gap `[^>]*`, plus
word-bounded ordered alternation for the two counting scans; we embed exactly
that fragment of the regex language. -/

/-- One element of a search pattern: a literal character, a `\s+` gap, or a
`[^>]*` gap. -/
inductive RElem where
  | lit (c : Char)
  | wsPlus
  | anyNotGt
deriving Repr, DecidableEq

/-- Backtracking matcher: does the pattern match a prefix of `l`?  The fuel
bounds the recursion; every call consumes a pattern element or a character, so
`ps.length + l.length + 1` fuel is always enough. -/
def reMatch : Nat → List RElem → List Char → Bool
  | 0, _, _ => false
  | _ + 1, [], _ => true
  | f + 1, .lit c :: ps, l =>
    match l with
    | [] => false
    | d :: l' => c = d && reMatch f ps l'
  | f + 1, .wsPlus :: ps, l =>
    match l with
    | [] => false
    | d :: l' => isPySpace d && (reMatch f ps l' || reMatch f (.wsPlus :: ps) l')
  | f + 1, .anyNotGt :: ps, l =>
    reMatch f ps l ||
      match l with
      | [] => false
      | d :: l' => decide (d ≠ '>') && reMatch f (.anyNotGt :: ps) l'

/-- `re.search`: the pattern matches starting at some position of the text. -/
def reSearch (ps : List RElem) : List Char → Bool
  | [] => reMatch (ps.length + 1) ps []
  | l@(_ :: t) => reMatch (ps.length + l.length + 1) ps l || reSearch ps t

/-- Literal characters of a pattern. -/
def lits (s : String) : List RElem := s.toList.map RElem.lit

/-- The 16 aggregator patterns of scraper.py lines 50-67. -/
def aggregator_patterns : List (List RElem) :=
  [ lits "business" ++ [.wsPlus] ++ lits "directory"
  , lits "company" ++ [.wsPlus] ++ lits "list"
  , lits "search" ++ [.wsPlus] ++ lits "results"
  , lits "find" ++ [.wsPlus] ++ lits "companies"
  , lits "business" ++ [.wsPlus] ++ lits "listing"
  , lits "companies" ++ [.wsPlus] ++ lits "in"
  , lits "local" ++ [.wsPlus] ++ lits "business"
  , lits "yellow" ++ [.wsPlus] ++ lits "pages"
  , lits "business" ++ [.wsPlus] ++ lits "guide"
  , lits "company" ++ [.wsPlus] ++ lits "directory"
  , lits "<table" ++ [.anyNotGt] ++ lits "class" ++ [.anyNotGt] ++ lits "listing"
  , lits "<div" ++ [.anyNotGt] ++ lits "class" ++ [.anyNotGt] ++ lits "listing"
  , lits "<ul" ++ [.anyNotGt] ++ lits "class" ++ [.anyNotGt] ++ lits "results"
  , lits "<div" ++ [.anyNotGt] ++ lits "class" ++ [.anyNotGt] ++ lits "results"
  , lits "<div" ++ [.anyNotGt] ++ lits "class" ++ [.anyNotGt] ++ lits "company-list"
  , lits "<div" ++ [.anyNotGt] ++ lits "class" ++ [.anyNotGt] ++ lits "business-list" ]

/-- Word character class of the regex `\w` (ASCII part). -/
def isWordChar (c : Char) : Bool := c.isAlphanum || c = '_'

/-- Organization nouns of the scan at scraper.py line 70, in source order. -/
def orgWords : List (List Char) :=
  ["company", "business", "firm", "enterprise", "corporation", "inc",
   "llc", "gmbh", "ag"].map String.toList

/-- Contact tokens of the scan at scraper.py line 79, in source order. -/
def contactWords : List (List Char) :=
  ["contact", "address", "phone", "email"].map String.toList

/-- Try the word-bounded ordered alternation `\b(w1|w2|...)\b` at the current
position, `prevIsWord` telling whether the previous character was a word
character.  Returns the matched word. -/
def wordMatchAt (prevIsWord : Bool) (l : List Char) : Option (List Char) :=
  if prevIsWord then none
  else
    orgWords.findSome? fun w =>
      if w.isPrefixOf l then
        match l.drop w.length with
        | [] => some w
        | c :: _ => if isWordChar c then none else some w
      else none

/-- Count the non-overlapping, leftmost matches of the organization-noun scan
(`re.findall` semantics). -/
def countWordsAux : Nat → Bool → List Char → Nat
  | 0, _, _ => 0
  | _ + 1, _, [] => 0
  | f + 1, prev, l@(c :: t) =>
    match wordMatchAt prev l with
    | some w => 1 + countWordsAux f true (l.drop w.length)
    | none => countWordsAux f (isWordChar c) t

/-- Try the unanchored ordered alternation of the contact-token scan. -/
def contactMatchAt (l : List Char) : Option (List Char) :=
  contactWords.findSome? fun w => if w.isPrefixOf l then some w else none

/-- Count the non-overlapping, leftmost matches of the contact-token scan. -/
def countContactsAux : Nat → List Char → Nat
  | 0, _ => 0
  | _ + 1, [] => 0
  | f + 1, l@(_ :: t) =>
    match contactMatchAt l with
    | some w => 1 + countContactsAux f (l.drop w.length)
    | none => countContactsAux f t

/-- `aggregator_score` of scraper.py lines 73-76: how many of the 16 patterns
have a match in the lowercased markup. -/
def aggregatorScore (html_content : String) : Nat :=
  aggregator_patterns.countP fun p => reSearch p (pyLower html_content).toList

/-- `company_mentions` of scraper.py line 70. -/
def companyMentions (html_content : String) : Nat :=
  let l := (pyLower html_content).toList
  countWordsAux (l.length + 1) false l

/-- `contact_sections` of scraper.py line 79. -/
def contactSections (html_content : String) : Nat :=
  let l := (pyLower html_content).toList
  countContactsAux (l.length + 1) l

/-- `detect_page_type` of scraper.py lines 40-92 (its locals inlined through
the three count functions above; the `except` branch of the source is dead in
this total embedding, since the scoring computation cannot fail). -/
def detect_page_type (html_content url : String) : String :=
  if 2 ≤ aggregatorScore html_content ∨ 10 < companyMentions html_content ∨
      5 < contactSections html_content then
    "aggregator"
  else
    "single_company"

/-- C1: the classifier answers `aggregator` exactly when the pattern score is
at least 2, or there are more than 10 organization-noun mentions, or more than
5 contact-token occurrences, and `single_company` exactly otherwise. -/
theorem detect_page_type_decision (html_content url : String) :
    (detect_page_type html_content url = "aggregator" ↔
      (2 ≤ aggregatorScore html_content ∨ 10 < companyMentions html_content ∨
        5 < contactSections html_content)) ∧
    (detect_page_type html_content url = "single_company" ↔
      ¬(2 ≤ aggregatorScore html_content ∨ 10 < companyMentions html_content ∨
        5 < contactSections html_content)) := by
  unfold detect_page_type
  split
  · next h =>
    refine ⟨⟨fun _ => h, fun _ => rfl⟩, ⟨fun heq => ?_, fun hn => absurd h hn⟩⟩
    exact absurd heq (by decide)
  · next h =>
    refine ⟨⟨fun heq => ?_, fun hc => absurd hc h⟩, ⟨fun _ => h, fun _ => rfl⟩⟩
    exact absurd heq (by decide)

/-! ### JSON values and `json.loads` (used by both extractor variants) -/

/-- JSON values as produced by `json.loads` (objects kept as field lists in
source order; a lookup takes the last binding, as a Python dict does). -/
inductive Json where
  | null
  | bool (b : Bool)
  | num (q : ℚ)
  | str (s : String)
  | arr (elems : List Json)
  | obj (fields : List (String × Json))
deriving Repr, Inhabited

/-- JSON insignificant whitespace. -/
def isJsonWs (c : Char) : Bool := c = ' ' || c = '\t' || c = '\n' || c = '\r'

/-- Skip insignificant whitespace. -/
def skipWs : List Char → List Char
  | [] => []
  | c :: l => if isJsonWs c then skipWs l else c :: l

/-- Hexadecimal digit value. -/
def hexVal (c : Char) : Option Nat :=
  if '0' ≤ c ∧ c ≤ '9' then some (c.toNat - 48)
  else if 'a' ≤ c ∧ c ≤ 'f' then some (c.toNat - 87)
  else if 'A' ≤ c ∧ c ≤ 'F' then some (c.toNat - 55)
  else none

/-- Parse the body of a JSON string (opening quote already consumed); strict
mode: unescaped control characters and unknown escapes are rejected. -/
def parseStringAux : List Char → Option (List Char × List Char)
  | [] => none
  | '"' :: l => some ([], l)
  | '\\' :: '"' :: l => (parseStringAux l).map fun p => ('"' :: p.1, p.2)
  | '\\' :: '\\' :: l => (parseStringAux l).map fun p => ('\\' :: p.1, p.2)
  | '\\' :: '/' :: l => (parseStringAux l).map fun p => ('/' :: p.1, p.2)
  | '\\' :: 'b' :: l => (parseStringAux l).map fun p => ('\x08' :: p.1, p.2)
  | '\\' :: 'f' :: l => (parseStringAux l).map fun p => ('\x0c' :: p.1, p.2)
  | '\\' :: 'n' :: l => (parseStringAux l).map fun p => ('\n' :: p.1, p.2)
  | '\\' :: 'r' :: l => (parseStringAux l).map fun p => ('\r' :: p.1, p.2)
  | '\\' :: 't' :: l => (parseStringAux l).map fun p => ('\t' :: p.1, p.2)
  | '\\' :: 'u' :: a :: b :: c :: d :: l =>
    match hexVal a, hexVal b, hexVal c, hexVal d with
    | some x, some y, some z, some w =>
      (parseStringAux l).map fun p => (Char.ofNat (((x * 16 + y) * 16 + z) * 16 + w) :: p.1, p.2)
    | _, _, _, _ => none
  | '\\' :: _ => none
  | c :: l => if c.toNat < 32 then none else (parseStringAux l).map fun p => (c :: p.1, p.2)

/-- Take the leading run of decimal digits. -/
def spanDigits : List Char → List Char × List Char
  | [] => ([], [])
  | c :: t =>
    if c.isDigit then
      let p := spanDigits t
      (c :: p.1, p.2)
    else ([], c :: t)

/-- Decimal digits to a natural number. -/
def digitsToNat (ds : List Char) : Nat :=
  ds.foldl (fun n c => 10 * n + (c.toNat - 48)) 0

/-- Parse a JSON number with the number-regex semantics of the Python `json`
module: `-? (0 | [1-9][0-9]*) (\.[0-9]+)? ([eE][+-]?[0-9]+)?`. -/
def parseNumber (l : List Char) : Option (Json × List Char) :=
  let (neg, l1) :=
    match l with
    | '-' :: r => (true, r)
    | _ => (false, l)
  match l1 with
  | [] => none
  | c :: _ =>
    if ¬c.isDigit then none
    else
      let (intDs, l2) :=
        match l1 with
        | '0' :: r => (['0'], r)
        | _ => spanDigits l1
      let (fracDs, l3) :=
        match l2 with
        | '.' :: r =>
          let p := spanDigits r
          if p.1 = [] then ([], l2) else (p.1, p.2)
        | _ => ([], l2)
      let (expOk, expNeg, expDs, l4) :=
        match l3 with
        | e :: r =>
          if e = 'e' ∨ e = 'E' then
            let (sNeg, r1) :=
              match r with
              | '-' :: r2 => (true, r2)
              | '+' :: r2 => (false, r2)
              | _ => (false, r)
            let p := spanDigits r1
            if p.1 = [] then (false, false, ([] : List Char), l3) else (true, sNeg, p.1, p.2)
          else (false, false, ([] : List Char), l3)
        | [] => (false, false, ([] : List Char), l3)
      let mantissa : ℚ :=
        (digitsToNat intDs : ℚ) + (digitsToNat fracDs : ℚ) / (10 : ℚ) ^ fracDs.length
      let expo : ℤ :=
        if expOk then (if expNeg then -(digitsToNat expDs : ℤ) else (digitsToNat expDs : ℤ)) else 0
      let v : ℚ := (if neg then -mantissa else mantissa) * (10 : ℚ) ^ expo
      some (.num v, l4)

/-- What one step of the recursive-descent parser is asked to parse: a JSON
value, the items of a non-empty array, or the members of a non-empty object. -/
inductive PMode where
  | value
  | arrItems
  | objItems
deriving Repr, DecidableEq

/-- Result of one parser step, matching the three modes. -/
inductive PRes where
  | val (j : Json)
  | items (l : List Json)
  | fields (l : List (String × Json))
deriving Repr, Inhabited

/-- The recursive-descent JSON parser (fuel-bounded backstop for the nesting
recursion; `parseJson` always supplies sufficient fuel). -/
def parseStep : Nat → PMode → List Char → Option (PRes × List Char)
  | 0, _, _ => none
  | f + 1, .value, l =>
    match skipWs l with
    | '{' :: r =>
      match skipWs r with
      | '}' :: r2 => some (.val (.obj []), r2)
      | r2 =>
        match parseStep f .objItems r2 with
        | some (.fields fs, rest) => some (.val (.obj fs), rest)
        | _ => none
    | '[' :: r =>
      match skipWs r with
      | ']' :: r2 => some (.val (.arr []), r2)
      | r2 =>
        match parseStep f .arrItems r2 with
        | some (.items vs, rest) => some (.val (.arr vs), rest)
        | _ => none
    | '"' :: r => (parseStringAux r).map fun p => (.val (.str (String.mk p.1)), p.2)
    | 't' :: 'r' :: 'u' :: 'e' :: r => some (.val (.bool true), r)
    | 'f' :: 'a' :: 'l' :: 's' :: 'e' :: r => some (.val (.bool false), r)
    | 'n' :: 'u' :: 'l' :: 'l' :: r => some (.val .null, r)
    | l' => (parseNumber l').map fun p => (.val p.1, p.2)
  | f + 1, .arrItems, l =>
    match parseStep f .value l with
    | some (.val v, rest) =>
      (match skipWs rest with
       | ',' :: r2 =>
         match parseStep f .arrItems r2 with
         | some (.items vs, r3) => some (.items (v :: vs), r3)
         | _ => none
       | ']' :: r2 => some (.items [v], r2)
       | _ => none)
    | _ => none
  | f + 1, .objItems, l =>
    match skipWs l with
    | '"' :: r =>
      match parseStringAux r with
      | none => none
      | some (key, r2) =>
        match skipWs r2 with
        | ':' :: r3 =>
          match parseStep f .value r3 with
          | some (.val v, r4) =>
            (match skipWs r4 with
             | ',' :: r5 =>
               match parseStep f .objItems r5 with
               | some (.fields fs, r6) => some (.fields ((String.mk key, v) :: fs), r6)
               | _ => none
             | '}' :: r5 => some (.fields [(String.mk key, v)], r5)
             | _ => none)
          | _ => none
        | _ => none
    | _ => none

/-- `json.loads`: parse a complete JSON document; `none` models the raised
`JSONDecodeError` (including on trailing non-whitespace data). -/
def parseJson (s : String) : Option Json :=
  let l := s.toList
  match parseStep (2 * l.length + 8) .value l with
  | some (.val j, rest) => if skipWs rest = [] then some j else none
  | _ => none

/-- Python truthiness of a JSON value. -/
def jTruthy : Json → Bool
  | .null => false
  | .bool b => b
  | .num q => decide (q ≠ 0)
  | .str s => decide (s ≠ "")
  | .arr l => !l.isEmpty
  | .obj f => !f.isEmpty

/-- `dict.get`: last binding of the key, if any. -/
def jlookup (fields : List (String × Json)) (k : String) : Option Json :=
  (fields.reverse.find? fun p => p.1 == k).map fun p => p.2

/-- `extract_json_string` of helper.py: the first code-fenced block (with an
optional `json` language tag) stripped, else the whole string stripped.  This
helper exists in the repository but is called by neither extractor variant. -/
def extract_json_string (s : String) : String :=
  match pySplitOn s "```" with
  | _ :: mid :: _ :: _ =>
    pyStrip (if "json".toList.isPrefixOf mid.toList then String.mk (mid.toList.drop 4) else mid)
  | _ => pyStrip s

/-! ### Structured extractors (scraper.py `scrape_single_company_page`,
`scrape_aggregator_page`)

The extraction capability's `result.final_output` is an input to the
embedding: Python `None`, a string (to be `json.loads`-parsed), or an already
structured value. -/

/-- The `final_output` of an extraction-capability run. -/
inductive FinalOutput where
  | pyNone
  | pyStr (s : String)
  | pyObj (j : Json)
deriving Repr, Inhabited

/-- Python truthiness of a `final_output` value. -/
def outTruthy : FinalOutput → Bool
  | .pyNone => false
  | .pyStr s => decide (s ≠ "")
  | .pyObj j => jTruthy j

/-- Pydantic validation of a required `str` field. -/
def asStr : Json → Except String String
  | .str s => .ok s
  | _ => .error "Input should be a valid string"

/-- Pydantic validation of an `Optional[str]` field. -/
def asOptStr : Json → Except String (Option String)
  | .null => .ok none
  | .str s => .ok (some s)
  | _ => .error "Input should be a valid string or None"

/-- The `CompanyData(...)` construction of scraper.py lines 154-164
(single-company variant): `company_data.get('company_name', 'Unknown Company')`
and plain `get` for the optional fields, fixed confidence 0.8, `source_url`
set to the page URL.  Pydantic validates all fields and raises on failure. -/
def mkCompanySingle (url : String) (fields : List (String × Json)) : Except String CompanyData :=
  match asStr ((jlookup fields "company_name").getD (Json.str "Unknown Company")),
      asOptStr ((jlookup fields "website_url").getD Json.null),
      asOptStr ((jlookup fields "address").getD Json.null),
      asOptStr ((jlookup fields "contact_email").getD Json.null),
      asOptStr ((jlookup fields "phone_number").getD Json.null),
      asOptStr ((jlookup fields "description").getD Json.null),
      asOptStr ((jlookup fields "automation_proposal").getD Json.null) with
  | .ok name, .ok w, .ok a, .ok e, .ok p, .ok d, .ok ap =>
    .ok { company_name := name, website_url := w, address := a, contact_email := e,
          phone_number := p, description := d, automation_proposal := ap,
          source_url := url, confidence_score := mkRat 8 10 }
  | _, _, _, _, _, _, _ => .error "validation error"

/-- The `CompanyData(...)` construction of scraper.py lines 241-251
(aggregator variant): same fields, confidence 0.6. -/
def mkCompanyAgg (url : String) (fields : List (String × Json)) : Except String CompanyData :=
  match asStr ((jlookup fields "company_name").getD Json.null),
      asOptStr ((jlookup fields "website_url").getD Json.null),
      asOptStr ((jlookup fields "address").getD Json.null),
      asOptStr ((jlookup fields "contact_email").getD Json.null),
      asOptStr ((jlookup fields "phone_number").getD Json.null),
      asOptStr ((jlookup fields "description").getD Json.null),
      asOptStr ((jlookup fields "automation_proposal").getD Json.null) with
  | .ok name, .ok w, .ok a, .ok e, .ok p, .ok d, .ok ap =>
    .ok { company_name := name, website_url := w, address := a, contact_email := e,
          phone_number := p, description := d, automation_proposal := ap,
          source_url := url, confidence_score := mkRat 6 10 }
  | _, _, _, _, _, _, _ => .error "validation error"

/-- The conversion loop of scraper.py lines 151-165: every dict element of the
parsed list yields a record; non-dict elements are skipped; a validation
failure aborts the loop, the surrounding `except` returning the records
accumulated so far. -/
def buildSingle (url : String) : List Json → List CompanyData
  | [] => []
  | Json.obj fields :: rest =>
    match mkCompanySingle url fields with
    | .ok c => c :: buildSingle url rest
    | .error _ => []
  | _ :: rest => buildSingle url rest

/-- The conversion loop of scraper.py lines 238-252: dict elements with a
truthy `company_name` yield a record, others are skipped; a validation failure
aborts the loop, the surrounding `except` returning the records accumulated so
far. -/
def buildAgg (url : String) : List Json → List CompanyData
  | [] => []
  | Json.obj fields :: rest =>
    if jTruthy ((jlookup fields "company_name").getD Json.null) then
      match mkCompanyAgg url fields with
      | .ok c => c :: buildAgg url rest
      | .error _ => []
    else buildAgg url rest
  | _ :: rest => buildAgg url rest

/-- `scrape_single_company_page` of scraper.py lines 95-173, with the
capability output as an explicit input.  Note that the source passes
`result.final_output` to `json.loads` directly, without
`extract_json_string`. -/
def scrape_single_company_page (html_content url : String) (out : FinalOutput) :
    List CompanyData :=
  if html_content = "" ∨ (pyStrip html_content).length < 100 then []
  else if outTruthy out then
    match out with
    | .pyNone => []
    | .pyStr s =>
      match parseJson s with
      | some (Json.arr l) => buildSingle url l
      | _ => []
    | .pyObj j =>
      match j with
      | Json.arr l => buildSingle url l
      | _ => []
  else []

/-- `scrape_aggregator_page` of scraper.py lines 176-260, with the capability
output as an explicit input. -/
def scrape_aggregator_page (html_content url : String) (out : FinalOutput) :
    List CompanyData :=
  if html_content = "" ∨ (pyStrip html_content).length < 100 then []
  else if outTruthy out then
    match out with
    | .pyNone => []
    | .pyStr s =>
      match parseJson s with
      | some (Json.arr l) => buildAgg url l
      | _ => []
    | .pyObj j =>
      match j with
      | Json.arr l => buildAgg url l
      | _ => []
  else []

theorem mkCompanySingle_ok {url : String} {fields : List (String × Json)} {c : CompanyData}
    (h : mkCompanySingle url fields = .ok c) :
    c.confidence_score = mkRat 8 10 ∧ c.source_url = url := by
  unfold mkCompanySingle at h
  split at h
  · injection h with h1
    subst h1
    exact ⟨rfl, rfl⟩
  · simp at h

theorem mkCompanyAgg_ok {url : String} {fields : List (String × Json)} {c : CompanyData}
    (h : mkCompanyAgg url fields = .ok c) :
    c.confidence_score = mkRat 6 10 ∧ c.source_url = url := by
  unfold mkCompanyAgg at h
  split at h
  · injection h with h1
    subst h1
    exact ⟨rfl, rfl⟩
  · simp at h

theorem buildSingle_mem {url : String} {l : List Json} {c : CompanyData}
    (h : c ∈ buildSingle url l) :
    c.confidence_score = mkRat 8 10 ∧ c.source_url = url := by
  induction l with
  | nil => simp [buildSingle] at h
  | cons j rest ih =>
    cases j with
    | obj fields =>
      simp only [buildSingle] at h
      cases hmk : mkCompanySingle url fields with
      | ok c' =>
        rw [hmk] at h
        simp only [] at h
        rcases List.mem_cons.mp h with h1 | h1
        · subst h1; exact mkCompanySingle_ok hmk
        · exact ih h1
      | error e =>
        rw [hmk] at h
        simp at h
    | null => exact ih (by simpa [buildSingle] using h)
    | bool b => exact ih (by simpa [buildSingle] using h)
    | num q => exact ih (by simpa [buildSingle] using h)
    | str s => exact ih (by simpa [buildSingle] using h)
    | arr l' => exact ih (by simpa [buildSingle] using h)

theorem buildAgg_mem {url : String} {l : List Json} {c : CompanyData}
    (h : c ∈ buildAgg url l) :
    c.confidence_score = mkRat 6 10 ∧ c.source_url = url := by
  induction l with
  | nil => simp [buildAgg] at h
  | cons j rest ih =>
    cases j with
    | obj fields =>
      simp only [buildAgg] at h
      by_cases ht : jTruthy ((jlookup fields "company_name").getD Json.null) = true
      · rw [if_pos ht] at h
        cases hmk : mkCompanyAgg url fields with
        | ok c' =>
          rw [hmk] at h
          simp only [] at h
          rcases List.mem_cons.mp h with h1 | h1
          · subst h1; exact mkCompanyAgg_ok hmk
          · exact ih h1
        | error e =>
          rw [hmk] at h
          simp at h
      · rw [if_neg ht] at h
        exact ih h
    | null => exact ih (by simpa [buildAgg] using h)
    | bool b => exact ih (by simpa [buildAgg] using h)
    | num q => exact ih (by simpa [buildAgg] using h)
    | str s => exact ih (by simpa [buildAgg] using h)
    | arr l' => exact ih (by simpa [buildAgg] using h)

/-- C5 (amended): for every capability output the single-company extractor
returns either the empty list — on falsy output, on `json.loads` failure, on
parsed non-list output, or on an empty parsed array — or a list of records,
one per surviving dict element of the parsed array, each with confidence 0.8
and `source_url` the page URL.  (The source does not cap the list at one
record.) -/
theorem scrape_single_company_page_amended (html url : String) (out : FinalOutput) :
    (∀ c ∈ scrape_single_company_page html url out,
      c.confidence_score = mkRat 8 10 ∧ c.source_url = url) ∧
    (outTruthy out = false → scrape_single_company_page html url out = []) ∧
    (∀ s, out = .pyStr s → parseJson s = none →
      scrape_single_company_page html url out = []) ∧
    (∀ s j, out = .pyStr s → parseJson s = some j → (∀ l, j ≠ Json.arr l) →
      scrape_single_company_page html url out = []) ∧
    (∀ s, out = .pyStr s → parseJson s = some (Json.arr []) →
      scrape_single_company_page html url out = []) := by
  refine ⟨?_, ?_, ?_, ?_, ?_⟩
  · intro c hc
    unfold scrape_single_company_page at hc
    split at hc
    · simp at hc
    · split at hc
      · split at hc
        · simp at hc
        · split at hc
          · exact buildSingle_mem hc
          · simp at hc
        · split at hc
          · exact buildSingle_mem hc
          · simp at hc
      · simp at hc
  · intro hf
    unfold scrape_single_company_page
    split
    · rfl
    · rw [if_neg (by simp [hf])]
  · intro s hs hp
    subst hs
    unfold scrape_single_company_page
    split
    · rfl
    · split
      · dsimp only
        rw [hp]
      · rfl
  · intro s j hs hp hj
    subst hs
    unfold scrape_single_company_page
    split
    · rfl
    · split
      · dsimp only
        rw [hp]
        cases j with
        | arr l => exact absurd rfl (hj l)
        | null => rfl
        | bool b => rfl
        | num q => rfl
        | str s' => rfl
        | obj f => rfl
      · rfl
  · intro s hs hp
    subst hs
    unfold scrape_single_company_page
    split
    · rfl
    · split
      · dsimp only
        rw [hp]
        rfl
      · rfl

/-- A well-formed markup input: long enough to pass the length gate of both
extractors. -/
def htmlLong : String := String.mk (List.replicate 120 'a')

/-- A capability output string carrying two company objects. -/
def twoRecordOut : String :=
  "[\x7b\"company_name\": \"A\"\x7d, \x7b\"company_name\": \"B\"\x7d]"

/-- C5 (counterexample): on a two-object array output the single-company
extractor returns two records, not the empty list and not a single record. -/
theorem scrape_single_company_page_two_records :
    (scrape_single_company_page htmlLong "http://x" (.pyStr twoRecordOut)).length = 2 ∧
    ¬(scrape_single_company_page htmlLong "http://x" (.pyStr twoRecordOut) = [] ∨
      (scrape_single_company_page htmlLong "http://x" (.pyStr twoRecordOut)).length = 1) := by
  decide

/-- A capability output string carrying one company object. -/
def oneRecordOut : String := "[\x7b\"company_name\": \"Acme\"\x7d]"

/-- The record the single-company extractor produces from `oneRecordOut`. -/
def acmeRecord : CompanyData :=
  { company_name := "Acme", source_url := "http://x", confidence_score := mkRat 8 10 }

theorem scrape_single_company_page_amended_witness :
    acmeRecord.confidence_score = mkRat 8 10 ∧ acmeRecord.source_url = "http://x" :=
  (scrape_single_company_page_amended htmlLong "http://x" (.pyStr oneRecordOut)).1
    acmeRecord (by decide)

/-- A well-formed JSON-array capability output wrapped in code fences. -/
def fencedSingleOut : String := "```json\n[\x7b\"company_name\": \"Acme\"\x7d]\n```"

/-- A second fence-wrapped capability output, for the aggregator variant. -/
def fencedAggOut : String := "```json\n[\x7b\"company_name\": \"Beta GmbH\"\x7d]\n```"

/-- C6 (divergence): on fence-wrapped JSON-array output both extractors return
the empty list — `json.loads` is applied to the raw output and fails — even
though the array is recoverable: routing the same output through the
repository's own `extract_json_string` helper yields the company record. -/
theorem fenced_output_not_recovered :
    scrape_single_company_page htmlLong "http://x" (.pyStr fencedSingleOut) = [] ∧
    scrape_aggregator_page htmlLong "http://x" (.pyStr fencedAggOut) = [] ∧
    scrape_single_company_page htmlLong "http://x"
        (.pyStr (extract_json_string fencedSingleOut)) = [acmeRecord] ∧
    scrape_aggregator_page htmlLong "http://x"
        (.pyStr (extract_json_string fencedAggOut)) =
      [{ company_name := "Beta GmbH", source_url := "http://x",
         confidence_score := mkRat 6 10 }] := by
  decide

/-- C7: every record the aggregator extractor produces has confidence 0.6 and
`source_url` equal to the aggregator page's URL, and a parsed object whose
`company_name` is missing, null or empty is skipped without aborting the
conversion of the remaining objects. -/
theorem scrape_aggregator_page_spec (html url : String) (out : FinalOutput) :
    (∀ c ∈ scrape_aggregator_page html url out,
      c.confidence_score = mkRat 6 10 ∧ c.source_url = url) ∧
    (∀ fields rest, jTruthy ((jlookup fields "company_name").getD Json.null) = false →
      buildAgg url (Json.obj fields :: rest) = buildAgg url rest) := by
  constructor
  · intro c hc
    unfold scrape_aggregator_page at hc
    split at hc
    · simp at hc
    · split at hc
      · split at hc
        · simp at hc
        · split at hc
          · exact buildAgg_mem hc
          · simp at hc
        · split at hc
          · exact buildAgg_mem hc
          · simp at hc
      · simp at hc
  · intro fields rest hf
    simp only [buildAgg, hf]
    rw [if_neg (by simp)]

/-- The record the aggregator extractor produces from a one-object array with
name `C` and a per-company website URL. -/
def aggRecordC : CompanyData :=
  { company_name := "C", website_url := some "http://c.com",
    source_url := "http://agg.example", confidence_score := mkRat 6 10 }

theorem scrape_aggregator_page_spec_witness :
    (aggRecordC.confidence_score = mkRat 6 10 ∧ aggRecordC.source_url = "http://agg.example") ∧
    buildAgg "http://agg.example" [Json.obj [("company_name", Json.str "")]] =
      buildAgg "http://agg.example" [] :=
  ⟨(scrape_aggregator_page_spec htmlLong "http://agg.example"
      (.pyStr "[\x7b\"company_name\": \"\"\x7d, \x7b\"company_name\": \"C\", \"website_url\": \"http://c.com\"\x7d]")).1
      aggRecordC (by decide),
   (scrape_aggregator_page_spec htmlLong "http://agg.example" .pyNone).2
      [("company_name", Json.str "")] [] (by decide)⟩

/-- C2: the dedup step returns a list no longer than its input, in which the
`(lowercased name, website_url)` keys are pairwise distinct, keeping for each
key the first record in input order (the first record found for any key is the
same before and after dedup), and dedup is idempotent. -/
theorem removeDuplicates_spec (cs : List CompanyData) :
    (removeDuplicates cs).length ≤ cs.length ∧
    (removeDuplicates cs).Pairwise (fun a b => dedupKey a ≠ dedupKey b) ∧
    (∀ k : String × Option String,
      (removeDuplicates cs).find? (fun c => decide (dedupKey c = k)) =
        cs.find? (fun c => decide (dedupKey c = k))) ∧
    removeDuplicates (removeDuplicates cs) = removeDuplicates cs := by
  refine ⟨dedupAux_length_le [] cs, dedupAux_pairwise [] cs, ?_, ?_⟩
  · intro k
    exact dedupAux_find? cs [] k (by simp)
  · exact dedupAux_of_pairwise _ [] (by simp) (dedupAux_pairwise [] cs)

/-! ### Metadata fallback extractor (scraper.py `extract_from_search_metadata`,
lines 263-297) and the search-result model it consumes
(`SearchResultItem` of leadsense.py). -/

/-- SearchResultItem (pydantic model in leadsense.py): one upstream search
result; the `HttpUrl` is modelled by its string form. -/
structure SearchResultItem where
  Title : String
  URL : String
  Description : String
  Order : Int
deriving Repr, DecidableEq, Inhabited

/-- LeadDiscoveryResults (pydantic model in leadsense.py). -/
structure LeadDiscoveryResults where
  results : List SearchResultItem
deriving Repr, DecidableEq, Inhabited

/-- `get_concatenated_urls` of leadsense.py: the result URLs joined by `", "`. -/
def get_concatenated_urls (ld : LeadDiscoveryResults) : String :=
  String.intercalate ", " (ld.results.map fun r => r.URL)

/-- Split a character list at the first colon. -/
def splitFirstColon : List Char → Option (List Char × List Char)
  | [] => none
  | ':' :: l => some ([], l)
  | c :: l => (splitFirstColon l).map fun p => (c :: p.1, p.2)

/-- `urlparse(url).netloc` for the URL shapes the pipeline consumes: strip a
valid scheme before the first colon, then require `//` and read up to the
first `/`, `?` or `#`. -/
def netlocOf (url : String) : String :=
  let l := url.toList
  let afterScheme :=
    match splitFirstColon l with
    | some (sch, rest) =>
      match sch with
      | c :: cs =>
        if c.isAlpha && cs.all (fun d => d.isAlphanum || d = '+' || d = '-' || d = '.') then rest
        else l
      | [] => l
    | none => l
  match afterScheme with
  | '/' :: '/' :: r => String.mk (r.takeWhile fun c => !(c = '/' || c = '?' || c = '#'))
  | _ => ""

/-- Python `str.title()` (ASCII part): uppercase a letter after a non-letter,
lowercase a letter after a letter. -/
def pyTitleAux : Bool → List Char → List Char
  | _, [] => []
  | prevAlpha, c :: l =>
    if c.isAlpha then (if prevAlpha then c.toLower else c.toUpper) :: pyTitleAux true l
    else c :: pyTitleAux false l

/-- Python `str.title()` (ASCII part). -/
def pyTitle (s : String) : String := String.mk (pyTitleAux false s.toList)

/-- The name derivation of scraper.py lines 271-273: host with every `www.`
occurrence removed, first label before the first dot, separators replaced by
spaces, title-cased. -/
def deriveName (url : String) : String :=
  let base := (pySplitOn (pyReplace (netlocOf url) "www." "") ".").headD ""
  pyTitle (pyReplace (pyReplace base "-" " ") "_" " ")

/-- `extract_from_search_metadata` of scraper.py lines 263-297: a pure
function of the search result.  The `except` branch of the source (the
confidence-0.1 degenerate record) is dead in this total embedding, since no
step of the computation can fail for a well-typed search result. -/
def extract_from_search_metadata (r : SearchResultItem) : CompanyData :=
  let name0 := r.Title
  let name1 := if name0 = "" ∧ r.URL ≠ "" then deriveName r.URL else name0
  let name2 := if name1 = "" then "Unknown Company" else name1
  { company_name := name2,
    website_url := some r.URL,
    address := none,
    contact_email := none,
    phone_number := none,
    description := some (if r.Description = "" then "Company found through web search" else r.Description),
    automation_proposal := some ("Potential automation opportunities for " ++ name2 ++ " based on search results"),
    source_url := r.URL,
    confidence_score := mkRat 3 10 }

/-- C8: the metadata fallback extractor is a pure function of its input: the
record's confidence is 0.3; the name is the title when non-empty, else the
URL-host derivation (`www.` stripped, first label, separators to spaces,
title case), else the literal placeholder. -/
theorem extract_from_search_metadata_spec (r : SearchResultItem) :
    (extract_from_search_metadata r).confidence_score = mkRat 3 10 ∧
    (r.Title ≠ "" → (extract_from_search_metadata r).company_name = r.Title) ∧
    (r.Title = "" → r.URL ≠ "" →
      (extract_from_search_metadata r).company_name =
        (if deriveName r.URL = "" then "Unknown Company" else deriveName r.URL)) ∧
    (r.Title = "" → r.URL = "" →
      (extract_from_search_metadata r).company_name = "Unknown Company") := by
  refine ⟨rfl, ?_, ?_, ?_⟩
  · intro hT
    have h1 : ¬(r.Title = "" ∧ r.URL ≠ "") := fun hc => hT hc.1
    simp [extract_from_search_metadata, h1, hT]
  · intro hT hU
    simp [extract_from_search_metadata, hT, hU]
  · intro hT hU
    simp [extract_from_search_metadata, hT, hU]

/-- A search result with an empty title, for the URL-derivation path. -/
def titlelessResult : SearchResultItem :=
  { Title := "", URL := "https://www.acme-corp.com/about", Description := "", Order := 1 }

theorem extract_from_search_metadata_spec_witness :
    (extract_from_search_metadata titlelessResult).confidence_score = mkRat 3 10 ∧
    (extract_from_search_metadata titlelessResult).company_name =
      (if deriveName titlelessResult.URL = "" then "Unknown Company"
       else deriveName titlelessResult.URL) ∧
    deriveName titlelessResult.URL = "Acme Corp" :=
  ⟨(extract_from_search_metadata_spec titlelessResult).1,
   (extract_from_search_metadata_spec titlelessResult).2.2.1 (by decide) (by decide),
   by decide⟩

/-! ### Scrape orchestrator (scraper.py `run_enhanced_company_scraper_agent`,
lines 300-487)

A per-URL unit's external effects (the fetch and the two possible capability
invocations) are inputs through `UrlEnv`; the settled outcome a task delivers
to `asyncio.gather` is a `UnitResult`, where `exn` models a task that raised
and `res` the `(companies, success, error_message)` triple. -/

/-- One settled per-URL task outcome as seen by the aggregation loop. -/
inductive UnitResult where
  | exn (msg : String)
  | res (companies : List CompanyData) (success : Bool) (errMsg : String)
deriving Repr, DecidableEq, Inhabited

/-- The external effects available to one per-URL processing unit: the fetch
(`error` models a raised MCP/server exception, the string payload standing for
its rendered type and message; an empty `ok` string models a falsy
`final_output`), and the capability output of whichever extractor runs. -/
structure UrlEnv where
  fetch : Except String String
  singleOut : FinalOutput
  aggOut : FinalOutput
deriving Repr, Inhabited

/-- `process_single_url` of scraper.py lines 350-422: validate the URL, fetch,
classify, dispatch to the matching extractor, and convert every internal
failure into a `([], False, reason)` triple. -/
def process_single_url (env : UrlEnv) (url : String) : UnitResult :=
  if url = "" ∨ pyStrip url = "" then .res [] false "Empty or invalid URL provided"
  else
    let u := pyStrip url
    match env.fetch with
    | .error m => .res [] false ("MCP server error for " ++ u ++ ": " ++ m)
    | .ok html =>
      if html = "" then
        .res [] false ("Failed to fetch content from " ++ u ++ " - no response received")
      else
        let page_type := detect_page_type html u
        let companies :=
          if page_type = "single_company" then scrape_single_company_page html u env.singleOut
          else scrape_aggregator_page html u env.aggOut
        match companies with
        | [] => .res [] false ("No companies extracted from " ++ u ++ " - page type: " ++ page_type)
        | c :: rest => .res (c :: rest) true ""

/-- The task list of scraper.py line 425 together with `asyncio.gather`'s
order preservation: one `(url, outcome)` pair per capped URL, in order. -/
def runUnits (proc : Nat → String → UnitResult) : Nat → List String → List (String × UnitResult)
  | _, [] => []
  | i, u :: rest => (u, proc i u) :: runUnits proc (i + 1) rest

/-- Accumulator of the result-collection loop (scraper.py lines 429-458). -/
structure AggState where
  companies : List CompanyData
  successes : Nat
  failures : Nat
  errors : List String
deriving Repr, DecidableEq, Inhabited

/-- One iteration of the result-collection loop of scraper.py lines 434-458. -/
def stepAgg (st : AggState) (p : String × UnitResult) : AggState :=
  match p.2 with
  | .exn m =>
    { st with failures := st.failures + 1,
              errors := st.errors ++ ["Exception processing URL " ++ p.1 ++ ": " ++ m] }
  | .res cs true _ =>
    { st with companies := st.companies ++ cs, successes := st.successes + 1 }
  | .res _ false m =>
    { st with failures := st.failures + 1,
              errors := if m = "" then st.errors else st.errors ++ [m] }

/-- The full result-collection loop of scraper.py lines 429-458. -/
def collectResults (ps : List (String × UnitResult)) : AggState :=
  ps.foldl stepAgg ⟨[], 0, 0, []⟩

/-- The URL-string parse of scraper.py line 322: split on commas, strip, drop
empties. -/
def splitUrls (urls : String) : List String :=
  ((pySplitOn urls ",").map pyStrip).filter fun u => u ≠ ""

/-- `run_enhanced_company_scraper_agent` of scraper.py lines 300-487.  The
initial `except` branch (lines 339-348) is dead in this total embedding since
`get_concatenated_urls` cannot fail on a well-typed input; every other return
path is translated. -/
def run_enhanced_company_scraper_agent (ld : LeadDiscoveryResults)
    (proc : Nat → String → UnitResult) : ScrapingResult :=
  let urls := get_concatenated_urls ld
  if urls = "" ∨ pyStrip urls = "" then
    { companies := [], total_urls_processed := 0, successful_scrapes := 0,
      failed_scrapes := 0, errors := ["No URLs found in search results"] }
  else
    let url_list := splitUrls urls
    let limited_urls := url_list.take 5
    if limited_urls.isEmpty then
      { companies := [], total_urls_processed := 0, successful_scrapes := 0,
        failed_scrapes := 0, errors := ["No valid URLs to process"] }
    else
      let st := collectResults (runUnits proc 0 limited_urls)
      let all_companies :=
        if st.companies.isEmpty ∧ ld.results ≠ [] then
          st.companies ++ (ld.results.take 3).map extract_from_search_metadata
        else st.companies
      { companies := removeDuplicates all_companies,
        total_urls_processed := limited_urls.length,
        successful_scrapes := st.successes,
        failed_scrapes := st.failures,
        errors := st.errors }

theorem runUnits_length (proc : Nat → String → UnitResult) (i : Nat) (l : List String) :
    (runUnits proc i l).length = l.length := by
  induction l generalizing i with
  | nil => rfl
  | cons u rest ih => simp [runUnits, ih]

theorem foldl_stepAgg_counts (ps : List (String × UnitResult)) (st : AggState) :
    (ps.foldl stepAgg st).successes + (ps.foldl stepAgg st).failures =
      st.successes + st.failures + ps.length := by
  induction ps generalizing st with
  | nil => simp
  | cons p rest ih =>
    rcases p with ⟨u, r⟩
    rw [List.foldl_cons, ih]
    cases r with
    | exn m => simp [stepAgg]; omega
    | res cs b m =>
      cases b <;> simp [stepAgg] <;> omega

/-- C9: on an empty or whitespace-only concatenated URL string the
orchestrator returns (rather than raises) the zero-count result whose single
error entry reports the missing URLs — in particular with zero URLs
processed, no companies, and a non-empty error list. -/
theorem scraper_empty_input (ld : LeadDiscoveryResults) (proc : Nat → String → UnitResult)
    (h : pyStrip (get_concatenated_urls ld) = "") :
    run_enhanced_company_scraper_agent ld proc =
      { companies := [], total_urls_processed := 0, successful_scrapes := 0,
        failed_scrapes := 0, errors := ["No URLs found in search results"] } ∧
    (run_enhanced_company_scraper_agent ld proc).errors ≠ [] := by
  have hrun : run_enhanced_company_scraper_agent ld proc =
      { companies := [], total_urls_processed := 0, successful_scrapes := 0,
        failed_scrapes := 0, errors := ["No URLs found in search results"] } := by
    unfold run_enhanced_company_scraper_agent
    rw [if_pos (Or.inr h)]
  exact ⟨hrun, by rw [hrun]; simp⟩

theorem scraper_empty_input_witness :
    pyStrip (get_concatenated_urls ⟨[]⟩) = "" ∧
    (run_enhanced_company_scraper_agent ⟨[]⟩ (fun _ _ => .exn "boom")).total_urls_processed = 0 ∧
    (run_enhanced_company_scraper_agent ⟨[]⟩ (fun _ _ => .exn "boom")).companies = [] ∧
    (run_enhanced_company_scraper_agent ⟨[]⟩ (fun _ _ => .exn "boom")).errors ≠ [] := by
  refine ⟨by decide, ?_, ?_, ?_⟩
  · rw [(scraper_empty_input ⟨[]⟩ (fun _ _ => .exn "boom") (by decide)).1]
  · rw [(scraper_empty_input ⟨[]⟩ (fun _ _ => .exn "boom") (by decide)).1]
  · exact (scraper_empty_input ⟨[]⟩ (fun _ _ => .exn "boom") (by decide)).2

/-- C10: on every return path of the orchestrator,
`successful_scrapes + failed_scrapes = total_urls_processed`. -/
theorem scraper_counts_balanced (ld : LeadDiscoveryResults)
    (proc : Nat → String → UnitResult) :
    (run_enhanced_company_scraper_agent ld proc).successful_scrapes +
        (run_enhanced_company_scraper_agent ld proc).failed_scrapes =
      (run_enhanced_company_scraper_agent ld proc).total_urls_processed := by
  simp only [run_enhanced_company_scraper_agent]
  split
  · rfl
  · split
    · rfl
    · dsimp only
      rw [collectResults, foldl_stepAgg_counts, runUnits_length]
      simp

theorem pyStrip_eq_empty {s : String} (h : pyStrip s = "") :
    ∀ c ∈ s.toList, isPySpace c = true := by
  have hdata : (((s.toList.dropWhile isPySpace).reverse.dropWhile isPySpace).reverse
      : List Char) = [] := by
    have := congrArg String.toList h
    simpa [pyStrip] using this
  have h2 : (s.toList.dropWhile isPySpace).reverse.dropWhile isPySpace = [] :=
    List.reverse_eq_nil_iff.mp hdata
  have h3 : ∀ c ∈ s.toList.dropWhile isPySpace, isPySpace c = true := by
    intro c hc
    exact List.dropWhile_eq_nil_iff.mp h2 c (List.mem_reverse.mpr hc)
  intro c hc
  rw [← List.takeWhile_append_dropWhile isPySpace s.toList] at hc
  rcases List.mem_append.mp hc with h4 | h4
  · exact List.mem_takeWhile_imp h4
  · exact h3 c h4

theorem allWs_pyStrip_empty {s : String} (h : ∀ c ∈ s.toList, isPySpace c = true) :
    pyStrip s = "" := by
  unfold pyStrip
  rw [List.dropWhile_eq_nil_iff.mpr h]
  rfl

theorem pySplitAux_all_ws (sep : List Char) :
    ∀ (f : Nat) (l acc : List Char), (∀ c ∈ l, isPySpace c = true) →
      (∀ c ∈ acc, isPySpace c = true) →
      ∀ piece ∈ pySplitAux sep f l acc, ∀ c ∈ piece, isPySpace c = true := by
  intro f
  induction f with
  | zero =>
    intro l acc _ hacc piece hpiece c hc
    simp only [pySplitAux, List.mem_singleton] at hpiece
    subst hpiece
    exact hacc c (List.mem_reverse.mp hc)
  | succ f ih =>
    intro l acc hl hacc piece hpiece c hc
    cases l with
    | nil =>
      simp only [pySplitAux, List.mem_singleton] at hpiece
      subst hpiece
      exact hacc c (List.mem_reverse.mp hc)
    | cons d t =>
      simp only [pySplitAux] at hpiece
      split at hpiece
      · rcases List.mem_cons.mp hpiece with h1 | h1
        · subst h1
          exact hacc c (List.mem_reverse.mp hc)
        · exact ih _ [] (fun x hx => hl x (List.mem_of_mem_drop hx)) (by simp) piece h1 c hc
      · exact ih t (d :: acc) (fun x hx => hl x (List.mem_cons_of_mem _ hx))
          (fun x hx => by
            rcases List.mem_cons.mp hx with h2 | h2
            · subst h2; exact hl x (List.mem_cons_self _ _)
            · exact hacc x h2) piece hpiece c hc

theorem splitUrls_of_pyStrip_empty {urls : String} (h : pyStrip urls = "") :
    splitUrls urls = [] := by
  unfold splitUrls
  rw [List.filter_eq_nil_iff]
  intro a ha
  rcases List.mem_map.mp ha with ⟨piece, hpiece, rfl⟩
  rcases List.mem_map.mp hpiece with ⟨cl, hcl, rfl⟩
  have hws : ∀ c ∈ cl, isPySpace c = true :=
    pySplitAux_all_ws _ _ _ [] (pyStrip_eq_empty h) (by simp) cl hcl
  have : pyStrip (String.mk cl) = "" := allWs_pyStrip_empty (by simpa using hws)
  simp [this]

theorem runUnits_congr (proc proc' : Nat → String → UnitResult) :
    ∀ (l : List String) (i : Nat),
      (∀ j, i ≤ j → j < i + l.length → ∀ u, proc j u = proc' j u) →
      runUnits proc i l = runUnits proc' i l := by
  intro l
  induction l with
  | nil => intro i _; rfl
  | cons u rest ih =>
    intro i h
    simp only [runUnits]
    rw [h i (Nat.le_refl i) (by simp), ih (i + 1) (fun j hj1 hj2 v =>
      h j (by omega) (by simp at hj2 ⊢; omega) v)]

/-- C3: when the parsed URL list has more than 5 entries, the orchestrator
reports exactly 5 processed URLs, and its entire result is unchanged under any
modification of the per-URL processing at indices 5 and beyond — the URLs past
the cap are never processed, so they contribute to neither `failed_scrapes`
nor `errors`. -/
theorem scraper_caps_urls (ld : LeadDiscoveryResults)
    (proc proc' : Nat → String → UnitResult)
    (hlen : 5 < (splitUrls (get_concatenated_urls ld)).length)
    (hagree : ∀ i, i < 5 → ∀ u, proc i u = proc' i u) :
    (run_enhanced_company_scraper_agent ld proc).total_urls_processed = 5 ∧
    run_enhanced_company_scraper_agent ld proc =
      run_enhanced_company_scraper_agent ld proc' := by
  have hne : ¬(get_concatenated_urls ld = "" ∨ pyStrip (get_concatenated_urls ld) = "") := by
    rintro (h | h)
    · rw [h] at hlen
      exact absurd hlen (by decide)
    · rw [splitUrls_of_pyStrip_empty h] at hlen
      exact absurd hlen (by decide)
  have hlim : ((splitUrls (get_concatenated_urls ld)).take 5).length = 5 := by
    rw [List.length_take]
    omega
  have hlimne : ¬((splitUrls (get_concatenated_urls ld)).take 5).isEmpty = true := by
    intro hempty
    rw [List.isEmpty_iff.mp hempty] at hlim
    simp at hlim
  have hunits : runUnits proc 0 ((splitUrls (get_concatenated_urls ld)).take 5) =
      runUnits proc' 0 ((splitUrls (get_concatenated_urls ld)).take 5) := by
    refine runUnits_congr proc proc' _ 0 (fun j _ hj v => ?_)
    rw [hlim] at hj
    exact hagree j (by omega) v
  constructor
  · simp only [run_enhanced_company_scraper_agent]
    rw [if_neg hne, if_neg hlimne]
    exact hlim
  · simp only [run_enhanced_company_scraper_agent]
    rw [hunits]

/-- Eight search results, so that the concatenated URL string parses to eight
URLs. -/
def ldEight : LeadDiscoveryResults :=
  ⟨[⟨"T1", "https://a1.example/", "", 1⟩, ⟨"T2", "https://a2.example/", "", 2⟩,
    ⟨"T3", "https://a3.example/", "", 3⟩, ⟨"T4", "https://a4.example/", "", 4⟩,
    ⟨"T5", "https://a5.example/", "", 5⟩, ⟨"T6", "https://a6.example/", "", 6⟩,
    ⟨"T7", "https://a7.example/", "", 7⟩, ⟨"T8", "https://a8.example/", "", 8⟩]⟩

/-- A per-URL processing oracle on which every unit fails. -/
def procFail : Nat → String → UnitResult := fun _ _ => .res [] false "fetch failed"

theorem scraper_caps_urls_witness :
    5 < (splitUrls (get_concatenated_urls ldEight)).length ∧
    (run_enhanced_company_scraper_agent ldEight procFail).total_urls_processed = 5 :=
  ⟨by decide,
   (scraper_caps_urls ldEight procFail procFail (by decide) (fun _ _ _ => rfl)).1⟩

/-- Did a settled unit succeed? -/
def unitSuccess : UnitResult → Bool
  | .res _ true _ => true
  | _ => false

theorem process_single_url_success {env : UrlEnv} {url : String} {cs : List CompanyData}
    {m : String} (h : process_single_url env url = .res cs true m) : cs ≠ [] := by
  unfold process_single_url at h
  repeat' split at h
  all_goals try simp_all
  all_goals (split at h <;> try simp_all)
  all_goals
    (obtain ⟨h1, -⟩ := h
     exact fun hnil => List.cons_ne_nil _ _ (h1.trans hnil))

theorem foldl_stepAgg_companies_extend (ps : List (String × UnitResult)) (st : AggState) :
    ∃ t, (ps.foldl stepAgg st).companies = st.companies ++ t := by
  induction ps generalizing st with
  | nil => exact ⟨[], by simp⟩
  | cons p rest ih =>
    rw [List.foldl_cons]
    obtain ⟨t, ht⟩ := ih (stepAgg st p)
    rcases p with ⟨u, r⟩
    cases r with
    | exn m => exact ⟨t, by simpa [stepAgg] using ht⟩
    | res cs b m =>
      cases b with
      | true =>
        refine ⟨cs ++ t, ?_⟩
        rw [ht]
        simp [stepAgg]
      | false => exact ⟨t, by simpa [stepAgg] using ht⟩

theorem foldl_stepAgg_companies_ne_nil {ps : List (String × UnitResult)}
    {p : String × UnitResult} (hmem : p ∈ ps) {cs : List CompanyData} {m : String}
    (hp : p.2 = .res cs true m) (hcs : cs ≠ []) (st : AggState) :
    (ps.foldl stepAgg st).companies ≠ [] := by
  induction ps generalizing st with
  | nil => simp at hmem
  | cons q rest ih =>
    rw [List.foldl_cons]
    rcases List.mem_cons.mp hmem with h1 | h1
    · subst h1
      obtain ⟨t, ht⟩ := foldl_stepAgg_companies_extend rest (stepAgg st p)
      rw [ht]
      rcases p with ⟨u, r⟩
      simp only at hp
      subst hp
      simp only [stepAgg]
      intro hnil
      rcases List.append_eq_nil.mp hnil with ⟨hnil2, _⟩
      rcases List.append_eq_nil.mp hnil2 with ⟨_, hnil3⟩
      exact hcs hnil3
    · exact ih h1 (stepAgg st q)

theorem runUnits_mem {proc : Nat → String → UnitResult} :
    ∀ {l : List String} {i : Nat} {p : String × UnitResult},
      p ∈ runUnits proc i l → ∃ j, p = (p.1, proc j p.1) := by
  intro l
  induction l with
  | nil => intro i p h; simp [runUnits] at h
  | cons u rest ih =>
    intro i p h
    rw [runUnits] at h
    rcases List.mem_cons.mp h with h1 | h1
    · exact ⟨i, by rw [h1]⟩
    · exact ih h1

/-- The state the per-URL scraping phase settles into, before fallback and
dedup (a name for the corresponding subterm of the orchestrator). -/
def scrapedState (ld : LeadDiscoveryResults) (proc : Nat → String → UnitResult) : AggState :=
  collectResults (runUnits proc 0 ((splitUrls (get_concatenated_urls ld)).take 5))

/-- C4: with every per-URL unit behaving as `process_single_url` over its own
environment, the metadata fallback contributes records exactly when the
scraping phase produced none and upstream results exist — and then only the
first 3 search results are used; and whenever any unit succeeds, the scraped
aggregate is non-empty, so the fallback cannot trigger. -/
theorem fallback_trigger (ld : LeadDiscoveryResults) (envs : Nat → UrlEnv)
    (hU : pyStrip (get_concatenated_urls ld) ≠ "")
    (hL : ¬((splitUrls (get_concatenated_urls ld)).take 5).isEmpty = true) :
    ((scrapedState ld (fun i u => process_single_url (envs i) u)).companies.isEmpty = true ∧
        ld.results ≠ [] →
      (run_enhanced_company_scraper_agent ld (fun i u => process_single_url (envs i) u)).companies =
        removeDuplicates ((ld.results.take 3).map extract_from_search_metadata)) ∧
    (¬((scrapedState ld (fun i u => process_single_url (envs i) u)).companies.isEmpty = true ∧
        ld.results ≠ []) →
      (run_enhanced_company_scraper_agent ld (fun i u => process_single_url (envs i) u)).companies =
        removeDuplicates (scrapedState ld (fun i u => process_single_url (envs i) u)).companies) ∧
    (∀ p ∈ runUnits (fun i u => process_single_url (envs i) u) 0
        ((splitUrls (get_concatenated_urls ld)).take 5),
      unitSuccess p.2 = true →
      (scrapedState ld (fun i u => process_single_url (envs i) u)).companies ≠ []) := by
  have hne : ¬(get_concatenated_urls ld = "" ∨ pyStrip (get_concatenated_urls ld) = "") := by
    rintro (h | h)
    · exact hU (by rw [h]; rfl)
    · exact hU h
  refine ⟨?_, ?_, ?_⟩
  · intro hcond
    unfold scrapedState at hcond
    simp only [run_enhanced_company_scraper_agent]
    rw [if_neg hne, if_neg hL]
    dsimp only
    rw [if_pos hcond, List.isEmpty_iff.mp hcond.1, List.nil_append]
  · intro hcond
    unfold scrapedState at hcond
    unfold scrapedState
    simp only [run_enhanced_company_scraper_agent]
    rw [if_neg hne, if_neg hL]
    dsimp only
    rw [if_neg hcond]
  · intro p hmem hsucc
    unfold scrapedState collectResults
    obtain ⟨j, hpj⟩ := runUnits_mem hmem
    have hp2 : p.2 = process_single_url (envs j) p.1 := by rw [hpj]
    cases hr : process_single_url (envs j) p.1 with
    | exn m => rw [hp2, hr] at hsucc; simp [unitSuccess] at hsucc
    | res cs b m =>
      cases b with
      | false => rw [hp2, hr] at hsucc; simp [unitSuccess] at hsucc
      | true =>
        have hcs : cs ≠ [] := process_single_url_success hr
        exact foldl_stepAgg_companies_ne_nil hmem (by rw [hp2, hr]) hcs _

/-- One search result whose URL will fail to fetch. -/
def ldOne : LeadDiscoveryResults :=
  ⟨[⟨"Acme", "https://www.acme.example/", "A search result", 1⟩]⟩

/-- An environment on which every fetch raises. -/
def envsFail : Nat → UrlEnv := fun _ => ⟨.error "boom", .pyNone, .pyNone⟩

theorem fallback_trigger_witness :
    (run_enhanced_company_scraper_agent ldOne
        (fun i u => process_single_url (envsFail i) u)).companies =
      removeDuplicates ((ldOne.results.take 3).map extract_from_search_metadata) :=
  (fallback_trigger ldOne envsFail (by decide) (by decide)).1 ⟨by decide, by decide⟩

end Leadsense
